import Mathlib

set_option maxRecDepth 8000

/-!
Verification of the feed-to-thread pipeline and the client-side cache of the
myAtmosphere single-account feed viewer.

The definitions below are a shallow embedding of the two modules that carry the
algorithmic content of the repository:

* `src/utils/cache.ts` — the `Cache` class backed by `localStorage`
  (modeled as an association-list store with explicit state passing; the
  current time `Date.now()` is an explicit `now : Nat` parameter, all times in
  milliseconds);
* `src/utils/bluesky.ts` — the thread filter
  (`filterPostsForSelfOnlyThreads` / `isReplyInSelfOnlyThread`) and the thread
  builder (`groupPostsIntoThreads`).

Network I/O is modeled by explicit oracle functions (the ancestor lookup of the
reply-chain walk), and the unbounded `while` loop of the chain walk is given an
explicit fuel parameter: `none` means the source loop would still be running
after that many iterations.
-/

namespace MyAtmosphere

/-! ## Data model (interfaces of `bluesky.ts`)

Fields that none of the verified functions read (`facets`, `createdAt`, embeds,
engagement counters, profile fields) are omitted; all fields that the filter,
builder and cache touch are kept with their source names.  `$type`
discriminators are modeled by the field `dollarType`.  The `indexedAt` string
is modeled directly as the numeric time value `new Date(indexedAt).getTime()`
that the source compares. -/

/-- Source: `BlueskyAuthor` (bluesky.ts). -/
structure BlueskyAuthor where
  did : String
  handle : String
  displayName : Option String := none
  avatar : Option String := none
deriving DecidableEq

/-- Source: the `{ uri: string }` references inside `BlueskyRecord.reply`. -/
structure PostRef where
  uri : String
deriving DecidableEq

/-- Source: `BlueskyRecord.reply`. -/
structure ReplyRef where
  parent : PostRef
  root : PostRef
deriving DecidableEq

/-- Source: `BlueskyRecord` (bluesky.ts).  `text` is a required `string` in the
source interface, so the defensive `post.record.text !== undefined` check of
the filter always passes. -/
structure BlueskyRecord where
  text : String
  reply : Option ReplyRef := none
  dollarType : Option String := none
deriving DecidableEq

/-- Source: `BlueskyPost` (bluesky.ts). -/
structure BlueskyPost where
  uri : String
  cid : String
  author : BlueskyAuthor
  record : BlueskyRecord
  indexedAt : Nat
deriving DecidableEq

/-- Source: `BlueskyFeedItem.reason` — present on reshare entries;
`by`/`indexedAt` of the reason are never read by the verified functions. -/
structure FeedReason where
  dollarType : String
deriving DecidableEq

/-- Source: `BlueskyFeedItem` (bluesky.ts): one unit of the raw paginated
feed. -/
structure BlueskyFeedItem where
  post : BlueskyPost
  reason : Option FeedReason := none
deriving DecidableEq

/-- Source: `BlueskyThreadItem` (bluesky.ts): a feed item (`post`, `reason`)
extended with `children` and `isThreadRoot`. -/
inductive BlueskyThreadItem where
  | mk : BlueskyFeedItem → List BlueskyThreadItem → Bool → BlueskyThreadItem

mutual

/-- Decidable equality for thread items (the nested inductive defeats the
deriving handler, so it is spelled out). -/
def threadItemDecEq : (a b : BlueskyThreadItem) → Decidable (a = b)
  | .mk e cs r, .mk e' cs' r' =>
    if h1 : e = e' then
      match threadItemListDecEq cs cs' with
      | isTrue h2 =>
        if h3 : r = r' then isTrue (by rw [h1, h2, h3])
        else isFalse (by intro hh; injection hh; contradiction)
      | isFalse _ => isFalse (by intro hh; injection hh; contradiction)
    else isFalse (by intro hh; injection hh; contradiction)

/-- Decidable equality for lists of thread items. -/
def threadItemListDecEq : (as bs : List BlueskyThreadItem) → Decidable (as = bs)
  | [], [] => isTrue rfl
  | [], _ :: _ => isFalse nofun
  | _ :: _, [] => isFalse nofun
  | a :: as, b :: bs =>
    match threadItemDecEq a b, threadItemListDecEq as bs with
    | isTrue h1, isTrue h2 => isTrue (by rw [h1, h2])
    | isFalse _, _ => isFalse (by intro hh; injection hh; contradiction)
    | _, isFalse _ => isFalse (by intro hh; injection hh; contradiction)

end

instance : DecidableEq BlueskyThreadItem := threadItemDecEq

/-- The feed-item part (`post` and `reason` fields) of a thread item. -/
def BlueskyThreadItem.entry : BlueskyThreadItem → BlueskyFeedItem
  | .mk e _ _ => e

/-- Source field `BlueskyThreadItem.children`. -/
def BlueskyThreadItem.children : BlueskyThreadItem → List BlueskyThreadItem
  | .mk _ cs _ => cs

/-- Source field `BlueskyThreadItem.isThreadRoot`. -/
def BlueskyThreadItem.isThreadRoot : BlueskyThreadItem → Bool
  | .mk _ _ r => r

/-- Source field access `threadItem.post`. -/
def BlueskyThreadItem.post (t : BlueskyThreadItem) : BlueskyPost :=
  t.entry.post

/-! ## Cache (`cache.ts`)

`localStorage` is an association list from string keys to raw stored values.
A raw value either parses back into a `CacheItem` (`Raw.ok`) or is unparsable
(`Raw.corrupt`), in which case `JSON.parse` throws on read and the `catch`
branch of `get` runs.  `set`of the source swallows persistence failures; the
claims under verification are about the semantics of successful reads and
writes, so the store operations are total. -/

/-- Source: `CacheItem<T>` (cache.ts): payload plus write-time `timestamp` and
ttl (`expiry`), both in milliseconds. -/
structure CacheItem (T : Type) where
  data : T
  timestamp : Nat
  expiry : Nat
deriving DecidableEq

/-- One raw value held by `localStorage` under a key. -/
inductive Raw (T : Type) where
  | corrupt : Raw T
  | ok : CacheItem T → Raw T
deriving DecidableEq

/-- The backing store. `localStorage` keys are unique; `storeSet` keeps them
so. -/
abbrev Store (T : Type) : Type := List (String × Raw T)

/-- Source: `localStorage.getItem`. -/
def storeGet {T : Type} : Store T → String → Option (Raw T)
  | [], _ => none
  | (k', v) :: rest, k => if k' = k then some v else storeGet rest k

/-- Source: `localStorage.setItem` (replaces the binding of `k`, or appends a
new one). -/
def storeSet {T : Type} : Store T → String → Raw T → Store T
  | [], k, v => [(k, v)]
  | (k', v') :: rest, k, v =>
    if k' = k then (k, v) :: rest else (k', v') :: storeSet rest k v

/-- Source: `localStorage.removeItem`. -/
def storeRemove {T : Type} : Store T → String → Store T
  | [], _ => []
  | (k', v) :: rest, k =>
    if k' = k then storeRemove rest k else (k', v) :: storeRemove rest k

/-- Source: `CACHE_PREFIX = "bskyweb_cache_"`. -/
def cacheKeyNamespace : String := "bskyweb_cache_"

/-- Source: `DEFAULT_TTL` — 5 minutes. -/
def DEFAULT_TTL : Nat := 5 * 60 * 1000

/-- Source: `POSTS_TTL` — 2 minutes. -/
def POSTS_TTL : Nat := 2 * 60 * 1000

/-- Source: `PROFILE_TTL` — 30 minutes. -/
def PROFILE_TTL : Nat := 30 * 60 * 1000

/-- Source: `Cache.getKey`. -/
def getKey (key : String) : String := cacheKeyNamespace ++ key

/-- Source: `Cache.isExpired`: `Date.now() > item.timestamp + item.expiry`. -/
def isExpired {T : Type} (now : Nat) (item : CacheItem T) : Bool :=
  decide (item.timestamp + item.expiry < now)

/-- Source: the `ttl || this.DEFAULT_TTL` default inside `Cache.set` (`0` is
falsy in JavaScript, hence also falls back to the default). -/
def ttlOrDefault (ttl : Option Nat) : Nat :=
  match ttl with
  | some t => if t = 0 then DEFAULT_TTL else t
  | none => DEFAULT_TTL

/-- Source: `Cache.set` (the successful-persistence path; a quota failure is
swallowed by the source and leaves the store unchanged). -/
def cacheSet {T : Type} (now : Nat) (s : Store T) (key : String) (data : T)
    (ttl : Option Nat) : Store T :=
  storeSet s (getKey key) (.ok ⟨data, now, ttlOrDefault ttl⟩)

/-- Source: `Cache.get`.  Returns the read result together with the store
afterwards, because an expired read has the side effect `this.delete(key)`.
The three branches: missing key (`if (!cached) return null`), unparsable
payload (`JSON.parse` throws, the `catch` returns `null` — note: without
deleting), and the expiry check. -/
def cacheGet {T : Type} (now : Nat) (s : Store T) (key : String) :
    Option T × Store T :=
  match storeGet s (getKey key) with
  | none => (none, s)
  | some .corrupt => (none, s)
  | some (.ok item) =>
    if isExpired now item then (none, storeRemove s (getKey key))
    else (some item.data, s)

/-- Source: `PostsCacheData` (cache.ts). -/
structure PostsCacheData where
  posts : List BlueskyThreadItem
  cursor : Option String
  handle : String
deriving DecidableEq

/-- The cache key used by all posts-specific methods: `posts_${handle}`. -/
def postsKey (handle : String) : String := "posts_" ++ handle

/-- Source: `Cache.getPosts` = `this.get<PostsCacheData>("posts_" + handle)`
(with the eviction side effect of `get`). -/
def getPosts (now : Nat) (s : Store PostsCacheData) (handle : String) :
    Option PostsCacheData × Store PostsCacheData :=
  cacheGet now s (postsKey handle)

/-- Source: `Cache.setPosts`.  Initial load replaces the entry wholesale;
otherwise the new page is concatenated after the existing posts (no
de-duplication in this method), falling back to a fresh entry when no cached
entry exists. -/
def setPosts (now : Nat) (s : Store PostsCacheData) (handle : String)
    (posts : List BlueskyThreadItem) (cursor : Option String)
    (isInitial : Bool) : Store PostsCacheData :=
  if isInitial then
    cacheSet now s (postsKey handle) ⟨posts, cursor, handle⟩ (some POSTS_TTL)
  else
    match getPosts now s handle with
    | (some existing, s1) =>
      cacheSet now s1 (postsKey handle) ⟨existing.posts ++ posts, cursor, handle⟩
        (some POSTS_TTL)
    | (none, s1) =>
      cacheSet now s1 (postsKey handle) ⟨posts, cursor, handle⟩ (some POSTS_TTL)

/-- Source: `Cache.appendPosts`: computes the set of URIs already cached,
keeps only incoming threads whose `post.uri` is not among them, and writes
only when at least one new thread remains; does nothing without an existing
(live) cached entry. -/
def appendPosts (now : Nat) (s : Store PostsCacheData) (handle : String)
    (newPosts : List BlueskyThreadItem) (newCursor : Option String) :
    Store PostsCacheData :=
  match getPosts now s handle with
  | (some existing, s1) =>
    let existingUris := existing.posts.map (fun t => t.post.uri)
    let uniqueNewPosts :=
      newPosts.filter (fun t => !(existingUris.contains t.post.uri))
    if uniqueNewPosts.length > 0 then
      cacheSet now s1 (postsKey handle)
        ⟨existing.posts ++ uniqueNewPosts, newCursor, handle⟩ (some POSTS_TTL)
    else s1
  | (none, s1) => s1

/-! ## Thread filter (`bluesky.ts` lines 479–568)

`isReplyInSelfOnlyThread` performs one `getPostThread?uri=…&depth=0` request
per step of the reply-chain walk.  That request is modeled by an oracle
`lookup : String → AncestorLookup`; the `while (currentPost)` loop is modeled
with explicit fuel (`none` = the source loop would still be running). -/

/-- Outcome of one `app.bsky.feed.getPostThread` request for a parent URI, as
the source code observes it:

* `failed` — `!parentResponse.ok`, or a thrown error (`fetch` rejection, or a
  `TypeError` from `parentData.thread` being absent); both paths `return
  false` in the source;
* `okNoPost` — a 2xx response whose `thread` object carries no `post` (the
  lexicon's `notFoundPost`/`blockedPost` views): `currentPost` becomes
  `undefined` and the `while` loop exits;
* `okPost p` — a 2xx response with `thread.post = p`. -/
inductive AncestorLookup where
  | failed : AncestorLookup
  | okNoPost : AncestorLookup
  | okPost : BlueskyPost → AncestorLookup

/-- Source: `"app.bsky.feed.defs#reasonRepost"`. -/
def reasonRepostType : String := "app.bsky.feed.defs#reasonRepost"

/-- Source: `"app.bsky.feed.repost"`. -/
def repostRecordType : String := "app.bsky.feed.repost"

/-- Source: `checkedAuthors.add(...)` — a JavaScript `Set`, modeled as a
duplicate-free list in insertion order. -/
def addVisited (visited : List String) (d : String) : List String :=
  if visited.contains d then visited else visited ++ [d]

/-- Source: the `while (currentPost)` loop of `isReplyInSelfOnlyThread`
(bluesky.ts lines 532–559), plus the final `checkedAuthors` check of line 562.
Per iteration: add the current author to `checkedAuthors`; reject a foreign
author; stop at the root (no `record.reply`); otherwise fetch the parent and
either reject (`failed`), exit the loop (`okNoPost` makes `currentPost`
falsy), or continue from the parent post. -/
def walkChain (lookup : String → AncestorLookup) (userDid : String) :
    Nat → BlueskyPost → List String → Option Bool
  | 0, _, _ => none
  | fuel + 1, currentPost, checkedAuthors =>
    let checked := addVisited checkedAuthors currentPost.author.did
    if currentPost.author.did ≠ userDid then some false
    else
      match currentPost.record.reply with
      | none => some (checked.length == 1 && checked.contains userDid)
      | some rep =>
        match lookup rep.parent.uri with
        | .failed => some false
        | .okNoPost => some (checked.length == 1 && checked.contains userDid)
        | .okPost parent => walkChain lookup userDid fuel parent checked

/-- Source: `isReplyInSelfOnlyThread` (bluesky.ts lines 523–568): the walk
starts at the reply itself with an empty `checkedAuthors` set. -/
def isReplyInSelfOnlyThread (lookup : String → AncestorLookup)
    (userDid : String) (fuel : Nat) (post : BlueskyPost) : Option Bool :=
  walkChain lookup userDid fuel post []

/-- Source: the body of the `for` loop of `filterPostsForSelfOnlyThreads`
(bluesky.ts lines 485–515): skip repost-marked entries, skip repost records,
keep non-replies, and keep replies exactly when the chain walk accepts.  The
`post.record.text !== undefined` guard always passes because `text` is a
required field of the interface. -/
def keepsFeedItem (lookup : String → AncestorLookup) (userDid : String)
    (fuel : Nat) (item : BlueskyFeedItem) : Bool :=
  if (match item.reason with
      | some r => r.dollarType == reasonRepostType
      | none => false) then false
  else if item.post.record.dollarType == some repostRecordType then false
  else
    match item.post.record.reply with
    | none => true
    | some _ => isReplyInSelfOnlyThread lookup userDid fuel item.post == some true

/-- Source: `filterPostsForSelfOnlyThreads` (bluesky.ts lines 479–518): the
accumulate-and-push loop is exactly a `List.filter`. -/
def filterPostsForSelfOnlyThreads (lookup : String → AncestorLookup)
    (userDid : String) (fuel : Nat) (feedItems : List BlueskyFeedItem) :
    List BlueskyFeedItem :=
  feedItems.filter (keepsFeedItem lookup userDid fuel)

/-- A reply chain as the walk sees it, listed from the reply itself up towards
the root: consecutive posts are connected by a successful ancestor lookup of
the `reply.parent.uri`. -/
def Linked (lookup : String → AncestorLookup) : List BlueskyPost → Prop
  | [] => True
  | [_] => True
  | a :: b :: rest =>
    (∃ rep, a.record.reply = some rep ∧ lookup rep.parent.uri = .okPost b) ∧
      Linked lookup (b :: rest)

/-- The chain walk never returns, at any amount of fuel and from any visited
set — i.e. the source `while` loop runs forever. -/
def walkNeverReturns (lookup : String → AncestorLookup) (userDid : String)
    (post : BlueskyPost) : Prop :=
  ∀ (fuel : Nat) (visited : List String),
    walkChain lookup userDid fuel post visited = none

/-! ## Thread builder (`bluesky.ts` lines 573–636)

The source mutates a `Map` of nodes in place; the embedding below computes the
same output functionally.  JavaScript's `Array.prototype.sort` is stable
(ES2019), so the two `sort` calls are modeled by a stable insertion sort over
the same comparator order. -/

/-- Stable insertion of `a` into `l`: `a` goes before the first element `b`
with `le a b`, hence after every earlier element that compares equal. -/
def insertLe {α : Type} (le : α → α → Bool) (a : α) : List α → List α
  | [] => [a]
  | b :: l => if le a b then a :: b :: l else b :: insertLe le a l

/-- Stable insertion sort: the unique stable sort for the total preorder
decided by `le`, hence the model of JavaScript's stable `Array.sort`. -/
def sortLe {α : Type} (le : α → α → Bool) : List α → List α
  | [] => []
  | a :: l => insertLe le a (sortLe le l)

/-- The sort key of a feed entry: its index timestamp (source:
`new Date(x.post.indexedAt).getTime()`). -/
def entryKey (e : BlueskyFeedItem) : Nat := e.post.indexedAt

/-- The sort key of a thread node. -/
def nodeKey (t : BlueskyThreadItem) : Nat := entryKey t.entry

/-- Descending comparator order (`(a, b) => keyB - keyA`): `a` may stay before
`b` iff `key b ≤ key a`. -/
def descLe {α : Type} (key : α → Nat) (a b : α) : Bool := decide (key b ≤ key a)

/-- Ascending comparator order (`(a, b) => keyA - keyB`). -/
def ascLe {α : Type} (key : α → Nat) (a b : α) : Bool := decide (key a ≤ key b)

/-- The `reply.parent.uri` of an entry, when it is a reply. -/
def parentUriOf (e : BlueskyFeedItem) : Option String :=
  e.post.record.reply.map (fun rep => rep.parent.uri)

/-- The URIs indexed by the first pass of `groupPostsIntoThreads` (`postMap`
keys). -/
def pageUris (posts : List BlueskyFeedItem) : List String :=
  posts.map (fun e => e.post.uri)

/-- Whether the second pass attaches `e` as a child: it is a reply and its
parent URI is present in this page's index (`postMap.get(parentUri)` hits). -/
def isAttachedChild (posts : List BlueskyFeedItem) (e : BlueskyFeedItem) :
    Bool :=
  match parentUriOf e with
  | some u => (pageUris posts).contains u
  | none => false

/-- The entries that the second pass pushes (in feed order) into the children
of the node with URI `u`. -/
def childrenEntries (posts : List BlueskyFeedItem) (u : String) :
    List BlueskyFeedItem :=
  posts.filter (fun c => parentUriOf c == some u)

/-- The entries that the second pass pushes into `threadRoots`, in feed order:
top-level posts and replies whose parent is not in this page. -/
def rootEntries (posts : List BlueskyFeedItem) : List BlueskyFeedItem :=
  posts.filter (fun e => !isAttachedChild posts e)

/-- The node of entry `e` with its (recursively built, not yet sorted)
children, as the second pass's mutations leave it.  `fuel` bounds the
recursion depth; `groupPostsIntoThreads` passes `posts.length`, which the
theorems below show suffices for every node reachable from a root. -/
def buildNode (posts : List BlueskyFeedItem) :
    Nat → Bool → BlueskyFeedItem → BlueskyThreadItem
  | 0, isRoot, e => .mk e [] isRoot
  | fuel + 1, isRoot, e =>
    .mk e ((childrenEntries posts e.post.uri).map (buildNode posts fuel false))
      isRoot

/-- Source: `sortThreadChildren` (bluesky.ts lines 624–631): sort every node's
children ascending by index timestamp, recursively.  The source sorts a node's
children before recursing into them; since sorting compares only the (never
rewritten) `post.indexedAt` keys, recursing first and sorting after yields the
same tree. -/
def sortForestNode : BlueskyThreadItem → BlueskyThreadItem
  | .mk e cs r =>
    .mk e (sortLe (ascLe nodeKey) (cs.attach.map (fun c => sortForestNode c.1)))
      r
decreasing_by
  simp_wf
  have := List.sizeOf_lt_of_mem c.2
  omega

/-- Source: `groupPostsIntoThreads` (bluesky.ts lines 573–636): index the page
by URI, attach each reply whose parent is on the page to that parent, collect
the rest as roots in feed order, sort the roots by index timestamp descending
and every node's children ascending. -/
def groupPostsIntoThreads (posts : List BlueskyFeedItem) :
    List BlueskyThreadItem :=
  (sortLe (descLe entryKey) (rootEntries posts)).map
    (fun e => sortForestNode (buildNode posts posts.length true e))

/-- Occurrence of a node in a thread tree (the node itself, or a node of some
subtree). -/
inductive OccursIn : BlueskyThreadItem → BlueskyThreadItem → Prop where
  | refl (t : BlueskyThreadItem) : OccursIn t t
  | child {t c s : BlueskyThreadItem} :
      c ∈ s.children → OccursIn t c → OccursIn t s

/-- Ancestor-path condition used to show that `posts.length` fuel suffices:
`AncChainCond posts (a :: rest)` says the whole list lives on the page, each
element's parent URI is the URI of the next element, and the last element is
one of the page's roots. -/
def AncChainCond (posts : List BlueskyFeedItem) : List BlueskyFeedItem → Prop
  | [] => False
  | [a] => a ∈ posts ∧ isAttachedChild posts a = false
  | a :: b :: rest =>
    a ∈ posts ∧ parentUriOf a = some b.post.uri ∧ AncChainCond posts (b :: rest)

/-! ## Concrete instances used by witnesses and counterexamples -/

/-- The target account of the concrete scenarios. -/
def selfDid : String := "did:plc:self"

/-- The target account's author record. -/
def selfAuthor : BlueskyAuthor := { did := selfDid, handle := "self.example" }

/-- Some other account's author record. -/
def otherAuthor : BlueskyAuthor :=
  { did := "did:plc:other", handle := "other.example" }

/-- A root post by the target account (no reply reference). -/
def rootSelfPost : BlueskyPost :=
  { uri := "at://self/root", cid := "c0", author := selfAuthor,
    record := { text := "root" }, indexedAt := 10 }

/-- A reply by the target account whose parent is `rootSelfPost`. -/
def selfReplyPost : BlueskyPost :=
  { uri := "at://self/r1", cid := "c1", author := selfAuthor,
    record := { text := "self reply",
                reply := some { parent := { uri := "at://self/root" },
                                root := { uri := "at://self/root" } } },
    indexedAt := 20 }

/-- A post by the other account (a foreign ancestor). -/
def foreignParentPost : BlueskyPost :=
  { uri := "at://other/f1", cid := "c2", author := otherAuthor,
    record := { text := "foreign" }, indexedAt := 5 }

/-- A reply by the target account whose parent is the foreign post. -/
def foreignReplyPost : BlueskyPost :=
  { uri := "at://self/r2", cid := "c3", author := selfAuthor,
    record := { text := "reply to other",
                reply := some { parent := { uri := "at://other/f1" },
                                root := { uri := "at://other/f1" } } },
    indexedAt := 30 }

/-- A repost-marked feed entry (`reason.$type = reasonRepost`). -/
def repostMarkerItem : BlueskyFeedItem :=
  { post := rootSelfPost, reason := some { dollarType := reasonRepostType } }

/-- Feed entry wrapping `selfReplyPost`. -/
def selfReplyItem : BlueskyFeedItem := { post := selfReplyPost }

/-- Feed entry wrapping `foreignReplyPost`. -/
def foreignReplyItem : BlueskyFeedItem := { post := foreignReplyPost }

/-- Ancestor-lookup oracle for the concrete feed: resolves the two parent
URIs, fails on everything else. -/
def scenarioLookup : String → AncestorLookup := fun u =>
  if u = "at://self/root" then .okPost rootSelfPost
  else if u = "at://other/f1" then .okPost foreignParentPost
  else .failed

/-- The concrete feed page. -/
def scenarioFeed : List BlueskyFeedItem :=
  [repostMarkerItem, selfReplyItem, foreignReplyItem]

/-- A self-authored reply whose parent lookup yields a 2xx response carrying
no post (`notFoundPost`-style thread view). -/
def orphanReplyPost : BlueskyPost :=
  { uri := "at://self/orphan", cid := "c4", author := selfAuthor,
    record := { text := "reply to a vanished post",
                reply := some { parent := { uri := "at://gone/p" },
                                root := { uri := "at://gone/p" } } },
    indexedAt := 40 }

/-- Feed entry wrapping `orphanReplyPost`. -/
def orphanReplyItem : BlueskyFeedItem := { post := orphanReplyPost }

/-- Oracle whose every lookup succeeds at the HTTP level but carries no post. -/
def missingPostLookup : String → AncestorLookup := fun _ => .okNoPost

/-- A self-authored post whose `reply.parent.uri` is its own URI. -/
def cyclicSelfPost : BlueskyPost :=
  { uri := "at://self/cycle", cid := "c5", author := selfAuthor,
    record := { text := "cyclic",
                reply := some { parent := { uri := "at://self/cycle" },
                                root := { uri := "at://self/cycle" } } },
    indexedAt := 50 }

/-- Oracle resolving the cyclic post's parent URI to the post itself. -/
def cyclicLookup : String → AncestorLookup := fun u =>
  if u = "at://self/cycle" then .okPost cyclicSelfPost else .failed

/-- URI of the `i`-th post of a 60-deep self-only chain. -/
def deepChainUri (i : Nat) : String := "d" ++ toString i

/-- The `i`-th post of a 60-deep self-only chain: post `i` replies to post
`i + 1`; post 59 is the root. -/
def deepChainPost (i : Nat) : BlueskyPost :=
  { uri := deepChainUri i, cid := "", author := selfAuthor,
    record := { text := "",
                reply := if i < 59 then
                    some { parent := { uri := deepChainUri (i + 1) },
                           root := { uri := deepChainUri 59 } }
                  else none },
    indexedAt := i }

/-- Oracle resolving every URI of the 60-deep chain. -/
def deepChainLookup : String → AncestorLookup := fun u =>
  match (List.range 60).find? (fun i => deepChainUri i == u) with
  | some i => .okPost (deepChainPost i)
  | none => .failed

/-- A stored entry written at time 100 with a 50 ms ttl. -/
def plainStoredItem : CacheItem String :=
  { data := "v", timestamp := 100, expiry := 50 }

/-- A one-entry store holding `plainStoredItem` under cache key `k`. -/
def plainStore : Store String := [(getKey "k", Raw.ok plainStoredItem)]

/-- A store whose only entry has an unparsable payload. -/
def corruptStore : Store String := [(getKey "bad", Raw.corrupt)]

/-- Thread item with post URI `at://self/root`. -/
def threadItemA : BlueskyThreadItem := .mk { post := rootSelfPost } [] true

/-- Thread item with post URI `at://other/f1`. -/
def threadItemB : BlueskyThreadItem :=
  .mk { post := foreignParentPost } [] true

/-- Thread item with post URI `at://self/r1`. -/
def threadItemC : BlueskyThreadItem := .mk { post := selfReplyPost } [] true

/-- Posts cache holding `[threadItemA, threadItemB]` for handle `h`, written
at time 0. -/
def appendSeedStore : Store PostsCacheData :=
  [(getKey (postsKey "h"),
    Raw.ok { data := { posts := [threadItemA, threadItemB],
                       cursor := some "p1", handle := "h" },
             timestamp := 0, expiry := POSTS_TTL })]

/-- Posts cache holding `[threadItemA]` for handle `h`, written at time 0. -/
def dupSeedStore : Store PostsCacheData :=
  [(getKey (postsKey "h"),
    Raw.ok { data := { posts := [threadItemA], cursor := some "p1",
                       handle := "h" },
             timestamp := 0, expiry := POSTS_TTL })]

/-- The store after a non-initial `setPosts` of a page repeating the already
cached `threadItemA`. -/
def dupStore : Store PostsCacheData :=
  setPosts 0 dupSeedStore "h" [threadItemA] (some "p2") false

/-- The post URIs currently cached for a handle (empty when no live entry). -/
def cachedPostUris (now : Nat) (s : Store PostsCacheData) (handle : String) :
    List String :=
  match (getPosts now s handle).1 with
  | some d => d.posts.map (fun t => t.post.uri)
  | none => []

/-- Feed entry of the root post (timestamp 10). -/
def pageRootEntry : BlueskyFeedItem := { post := rootSelfPost }

/-- Feed entry of the first reply to the root (timestamp 20). -/
def pageChild1 : BlueskyFeedItem := { post := selfReplyPost }

/-- A second reply to the root, with timestamp 15 (younger than the first in
feed order, older by timestamp). -/
def pageChild2 : BlueskyFeedItem :=
  { post := { uri := "at://self/r3", cid := "c6", author := selfAuthor,
              record := { text := "second reply",
                          reply := some { parent := { uri := "at://self/root" },
                                          root := { uri := "at://self/root" } } },
              indexedAt := 15 } }

/-- Feed entry of a reply whose parent is off this page (timestamp 40). -/
def pageOrphanEntry : BlueskyFeedItem := { post := orphanReplyPost }

/-- A concrete filtered page: a root, two of its replies, and a reply whose
parent is absent from the page. -/
def samplePage : List BlueskyFeedItem :=
  [pageRootEntry, pageChild1, pageChild2, pageOrphanEntry]

/-! ## Lemmas about the stable sort -/

theorem mem_insertLe {α : Type} (le : α → α → Bool) (a x : α) (l : List α) :
    x ∈ insertLe le a l ↔ x = a ∨ x ∈ l := by
  induction l with
  | nil => simp [insertLe]
  | cons b l ih =>
    by_cases hab : le a b = true
    · simp [insertLe, hab]
    · simp only [insertLe, hab, if_neg, Bool.false_eq_true, ite_false,
        List.mem_cons, ih]
      tauto

theorem perm_insertLe {α : Type} (le : α → α → Bool) (a : α) (l : List α) :
    (insertLe le a l).Perm (a :: l) := by
  induction l with
  | nil => simp [insertLe]
  | cons b l ih =>
    by_cases hab : le a b = true
    · simp [insertLe, hab]
    · simp only [insertLe, hab, Bool.false_eq_true, ite_false]
      exact (ih.cons b).trans (List.Perm.swap a b l)

theorem sortLe_perm {α : Type} (le : α → α → Bool) (l : List α) :
    (sortLe le l).Perm l := by
  induction l with
  | nil => simp [sortLe]
  | cons a l ih => exact (perm_insertLe le a (sortLe le l)).trans (ih.cons a)

theorem pairwise_insertLe {α : Type} (le : α → α → Bool)
    (htotal : ∀ x y, le x y = true ∨ le y x = true)
    (htrans : ∀ x y z, le x y = true → le y z = true → le x z = true)
    (a : α) (l : List α) (h : l.Pairwise (fun x y => le x y = true)) :
    (insertLe le a l).Pairwise (fun x y => le x y = true) := by
  induction l with
  | nil => simp [insertLe]
  | cons b l ih =>
    rcases List.pairwise_cons.mp h with ⟨hb, hl⟩
    by_cases hab : le a b = true
    · simp only [insertLe, hab, ite_true]
      refine List.pairwise_cons.mpr ⟨?_, h⟩
      intro y hy
      rcases List.mem_cons.mp hy with rfl | hy
      · exact hab
      · exact htrans a b y hab (hb y hy)
    · have hba : le b a = true := (htotal a b).resolve_left hab
      simp only [insertLe, hab, Bool.false_eq_true, ite_false]
      refine List.pairwise_cons.mpr ⟨?_, ih hl⟩
      intro y hy
      rcases (mem_insertLe le a y l).mp hy with rfl | hy
      · exact hba
      · exact hb y hy

theorem sortLe_pairwise {α : Type} (le : α → α → Bool)
    (htotal : ∀ x y, le x y = true ∨ le y x = true)
    (htrans : ∀ x y z, le x y = true → le y z = true → le x z = true)
    (l : List α) : (sortLe le l).Pairwise (fun x y => le x y = true) := by
  induction l with
  | nil => simp [sortLe]
  | cons a l ih => exact pairwise_insertLe le htotal htrans a _ ih

theorem filter_insertLe_pos {α : Type} (le : α → α → Bool) (p : α → Bool)
    (a : α) (l : List α) (hpa : p a = true)
    (hstop : ∀ b, p b = true → le a b = true) :
    (insertLe le a l).filter p = a :: l.filter p := by
  induction l with
  | nil => simp [insertLe, hpa]
  | cons b l ih =>
    by_cases hab : le a b = true
    · simp [insertLe, hab, hpa]
    · have hpb : p b = false := by
        cases hpb : p b
        · rfl
        · exact absurd (hstop b hpb) (by simp [hab])
      simp [insertLe, hab, hpb, ih]

theorem filter_insertLe_neg {α : Type} (le : α → α → Bool) (p : α → Bool)
    (a : α) (l : List α) (hpa : p a = false) :
    (insertLe le a l).filter p = l.filter p := by
  induction l with
  | nil => simp [insertLe, hpa]
  | cons b l ih =>
    by_cases hab : le a b = true
    · simp [insertLe, hab, hpa]
    · cases hpb : p b
      · simp [insertLe, hab, hpa, hpb, ih]
      · simp [insertLe, hab, hpa, hpb, ih]

/-- Stability of the sort, expressed through filters: the elements satisfying
`p` (in the intended use, the elements of one fixed sort key) appear in the
sorted list exactly as they appear in the input. -/
theorem sortLe_filter {α : Type} (le : α → α → Bool) (p : α → Bool)
    (hp : ∀ x y, p x = true → p y = true → le x y = true) (l : List α) :
    (sortLe le l).filter p = l.filter p := by
  induction l with
  | nil => simp [sortLe]
  | cons a l ih =>
    cases hpa : p a
    · rw [sortLe, filter_insertLe_neg le p a _ hpa, ih, List.filter_cons,
        hpa]
      simp
    · rw [sortLe, filter_insertLe_pos le p a _ hpa (fun b hb => hp a b hpa hb),
        ih, List.filter_cons, hpa]
      simp

theorem insertLe_map {α β : Type} (g : α → β) (leA : α → α → Bool)
    (leB : β → β → Bool) (hcomm : ∀ x y, leB (g x) (g y) = leA x y)
    (a : α) (l : List α) :
    insertLe leB (g a) (l.map g) = (insertLe leA a l).map g := by
  induction l with
  | nil => simp [insertLe]
  | cons b l ih =>
    by_cases hab : leA a b = true
    · simp [insertLe, hcomm, hab]
    · simp [insertLe, hcomm, hab, ih]

theorem sortLe_map {α β : Type} (g : α → β) (leA : α → α → Bool)
    (leB : β → β → Bool) (hcomm : ∀ x y, leB (g x) (g y) = leA x y)
    (l : List α) : sortLe leB (l.map g) = (sortLe leA l).map g := by
  induction l with
  | nil => simp [sortLe]
  | cons a l ih => rw [List.map_cons, sortLe, sortLe, ih, insertLe_map g leA leB hcomm]

/-! ## Lemmas about the reply-chain walk -/

theorem addVisited_self (userDid : String) (visited : List String)
    (hv : visited = [] ∨ visited = [userDid]) :
    addVisited visited userDid = [userDid] := by
  rcases hv with rfl | rfl <;> simp [addVisited]

/-- On a fully linked chain whose every author is the target account and whose
last post is a thread root, the walk accepts — given at least chain-length
fuel (there is no depth cap: this holds at every chain length). -/
theorem walkChain_accepts_self_chain (lookup : String → AncestorLookup)
    (userDid : String) :
    ∀ (rest : List BlueskyPost) (p : BlueskyPost) (fuel : Nat)
      (visited : List String),
      Linked lookup (p :: rest) →
      (∀ q ∈ p :: rest, q.author.did = userDid) →
      (∀ q, (p :: rest).getLast? = some q → q.record.reply = none) →
      (p :: rest).length ≤ fuel →
      (visited = [] ∨ visited = [userDid]) →
      walkChain lookup userDid fuel p visited = some true := by
  intro rest
  induction rest with
  | nil =>
    intro p fuel visited _ hself hlast hfuel hv
    match fuel, hfuel with
    | fuel + 1, _ =>
      have hp : p.author.did = userDid := hself p (List.mem_singleton.mpr rfl)
      have hroot : p.record.reply = none := hlast p (by simp)
      simp [walkChain, hp, hroot, addVisited_self userDid visited hv]
  | cons b rest ih =>
    intro p fuel visited hlink hself hlast hfuel hv
    match fuel, hfuel with
    | fuel + 1, hfuel =>
      obtain ⟨⟨rep, hrep, hlook⟩, hlink'⟩ := hlink
      have hp : p.author.did = userDid := hself p (List.mem_cons_self p _)
      rw [walkChain]
      simp only [hp, ne_eq, not_true_eq_false, if_false, hrep, hlook,
        ite_false]
      rw [addVisited_self userDid visited hv]
      exact ih b fuel [userDid] hlink'
        (fun q hq => hself q (List.mem_cons_of_mem p hq))
        (fun q hq => hlast q (by rwa [List.getLast?_cons_cons]))
        (by simpa using Nat.le_of_succ_le_succ hfuel) (Or.inr rfl)

/-- If any author of a linked chain differs from the target account, the walk
rejects. -/
theorem walkChain_rejects_foreign_chain (lookup : String → AncestorLookup)
    (userDid : String) :
    ∀ (rest : List BlueskyPost) (p : BlueskyPost) (fuel : Nat)
      (visited : List String),
      Linked lookup (p :: rest) →
      (∃ q ∈ p :: rest, q.author.did ≠ userDid) →
      (p :: rest).length ≤ fuel →
      walkChain lookup userDid fuel p visited = some false := by
  intro rest
  induction rest with
  | nil =>
    intro p fuel visited _ hforeign hfuel
    match fuel, hfuel with
    | fuel + 1, _ =>
      obtain ⟨q, hq, hqd⟩ := hforeign
      rw [List.mem_singleton] at hq
      subst hq
      simp [walkChain, hqd]
  | cons b rest ih =>
    intro p fuel visited hlink hforeign hfuel
    match fuel, hfuel with
    | fuel + 1, hfuel =>
      by_cases hp : p.author.did = userDid
      · obtain ⟨⟨rep, hrep, hlook⟩, hlink'⟩ := hlink
        have hforeign' : ∃ q ∈ b :: rest, q.author.did ≠ userDid := by
          obtain ⟨q, hq, hqd⟩ := hforeign
          rcases List.mem_cons.mp hq with rfl | hq
          · exact absurd hp hqd
          · exact ⟨q, hq, hqd⟩
        rw [walkChain]
        simp only [hp, ne_eq, not_true_eq_false, if_false, hrep, hlook,
          ite_false]
        exact ih b fuel _ hlink' hforeign'
          (by simpa using Nat.le_of_succ_le_succ hfuel)
      · simp [walkChain, hp]

/-- The walk never returns on the concrete cyclic chain: each step reduces to
the same configuration, so no amount of fuel completes it. -/
theorem walkChain_cyclic_never_returns :
    walkNeverReturns cyclicLookup selfDid cyclicSelfPost := by
  intro fuel
  induction fuel with
  | zero => intro visited; rfl
  | succ n ih => intro visited; exact ih (addVisited visited selfDid)

/-! ## C1, C2, C9, C10 — the thread filter -/

/-- C1.  For every feed entry processed by the filter: an entry carrying a
repost marker is always excluded regardless of content; a reply whose ancestor
chain (self up to root, as produced by the lookups) contains any author other
than the target account is excluded; and a reply whose full chain is authored
solely by the target account, with every ancestor lookup succeeding, is
included (provided the entry is not repost-marked). -/
theorem filterPostsForSelfOnlyThreads_spec
    (lookup : String → AncestorLookup) (userDid : String) (fuel : Nat)
    (feedItems : List BlueskyFeedItem) :
    (∀ item ∈ feedItems, ∀ r, item.reason = some r →
        r.dollarType = reasonRepostType →
        item ∉ filterPostsForSelfOnlyThreads lookup userDid fuel feedItems)
    ∧ (∀ item ∈ feedItems, ∀ ch, item.post.record.reply ≠ none →
        Linked lookup (item.post :: ch) →
        (∃ q ∈ item.post :: ch, q.author.did ≠ userDid) →
        (item.post :: ch).length ≤ fuel →
        item ∉ filterPostsForSelfOnlyThreads lookup userDid fuel feedItems)
    ∧ (∀ item ∈ feedItems, ∀ ch,
        (∀ r, item.reason = some r → r.dollarType ≠ reasonRepostType) →
        item.post.record.dollarType ≠ some repostRecordType →
        item.post.record.reply ≠ none →
        Linked lookup (item.post :: ch) →
        (∀ q ∈ item.post :: ch, q.author.did = userDid) →
        (∀ q, (item.post :: ch).getLast? = some q → q.record.reply = none) →
        (item.post :: ch).length ≤ fuel →
        item ∈ filterPostsForSelfOnlyThreads lookup userDid fuel feedItems) := by
  refine ⟨?_, ?_, ?_⟩
  · intro item _ r hr hrt hmem
    have hkeep := (List.mem_filter.mp hmem).2
    rw [keepsFeedItem, hr] at hkeep
    simp [hrt] at hkeep
  · intro item _ ch hreply hlink hforeign hfuel hmem
    have hkeep := (List.mem_filter.mp hmem).2
    rw [keepsFeedItem] at hkeep
    split at hkeep
    · exact Bool.false_ne_true hkeep
    · split at hkeep
      · exact Bool.false_ne_true hkeep
      · rcases hrep : item.post.record.reply with _ | rep
        · exact hreply hrep
        · rw [hrep] at hkeep
          rw [isReplyInSelfOnlyThread,
            walkChain_rejects_foreign_chain lookup userDid ch item.post fuel []
              hlink hforeign hfuel] at hkeep
          simp at hkeep
  · intro item hitem ch hreason hrtype hreply hlink hself hlast hfuel
    refine List.mem_filter.mpr ⟨hitem, ?_⟩
    rw [keepsFeedItem]
    have h1 : (match item.reason with
        | some r => r.dollarType == reasonRepostType
        | none => false) = false := by
      rcases hr : item.reason with _ | r
      · rfl
      · simpa using hreason r hr
    rw [h1]
    simp only [Bool.false_eq_true, if_false]
    have h2 : (item.post.record.dollarType == some repostRecordType) = false := by
      simpa using hrtype
    rw [h2]
    simp only [Bool.false_eq_true, if_false]
    rcases hrep : item.post.record.reply with _ | rep
    · exact absurd hrep hreply
    · rw [isReplyInSelfOnlyThread,
        walkChain_accepts_self_chain lookup userDid ch item.post fuel []
          hlink hself hlast hfuel (Or.inl rfl)]
      rfl

/-- Witness for C1 on the concrete feed: the repost-marked entry and the reply
with a foreign ancestor are dropped, the self-only reply is kept. -/
theorem filterPostsForSelfOnlyThreads_spec_witness :
    repostMarkerItem ∉ filterPostsForSelfOnlyThreads scenarioLookup selfDid 5 scenarioFeed
    ∧ foreignReplyItem ∉ filterPostsForSelfOnlyThreads scenarioLookup selfDid 5 scenarioFeed
    ∧ selfReplyItem ∈ filterPostsForSelfOnlyThreads scenarioLookup selfDid 5 scenarioFeed := by
  refine ⟨?_, ?_, ?_⟩
  · exact (filterPostsForSelfOnlyThreads_spec scenarioLookup selfDid 5
      scenarioFeed).1 repostMarkerItem (by decide)
      { dollarType := reasonRepostType } rfl rfl
  · exact (filterPostsForSelfOnlyThreads_spec scenarioLookup selfDid 5
      scenarioFeed).2.1 foreignReplyItem (by decide) [foreignParentPost]
      (by decide) ⟨⟨foreignReplyPost.record.reply.get rfl, rfl, rfl⟩, trivial⟩
      (by decide) (by decide)
  · exact (filterPostsForSelfOnlyThreads_spec scenarioLookup selfDid 5
      scenarioFeed).2.2 selfReplyItem (by decide) [rootSelfPost]
      (by decide) (by decide) (by decide)
      ⟨⟨selfReplyPost.record.reply.get rfl, rfl, rfl⟩, trivial⟩
      (by decide) (by decide) (by decide)

/-- C2 (code bug).  A reply whose ancestor lookup succeeds at the HTTP level
but returns no post (`thread` without a `post`, as the lexicon's
`notFoundPost`/`blockedPost` views produce) is *included*: `currentPost`
becomes falsy, the `while` loop exits, and the final `checkedAuthors` check
passes — the claimed (and commented) fail-closed behavior does not happen on
this path. -/
theorem isReplyInSelfOnlyThread_acceptsMissingAncestor :
    isReplyInSelfOnlyThread missingPostLookup selfDid 5 orphanReplyPost
      = some true
    ∧ filterPostsForSelfOnlyThreads missingPostLookup selfDid 5
        [orphanReplyItem] = [orphanReplyItem] := by
  constructor <;> rfl

/-- C9 counterexample.  The walk has no maximum traversal depth of 50 (or any
other bound): a self-only chain 60 posts deep is accepted, where the claimed
depth-capped, fail-closed walk would have rejected it. -/
theorem walkChain_no_depth_cap_at_60 :
    isReplyInSelfOnlyThread deepChainLookup selfDid 100 (deepChainPost 0)
      = some true := by
  decide

/-- C9 (amended).  The chain walk applies no maximum traversal depth: a fully
linked self-only chain of every finite length is accepted given chain-length
fuel, and on cyclic parent-reference data the walk never returns at any fuel
(the source `while` loop runs forever instead of failing closed). -/
theorem walkChain_unbounded_depth :
    (∀ (lookup : String → AncestorLookup) (userDid : String)
        (p : BlueskyPost) (rest : List BlueskyPost) (fuel : Nat),
      Linked lookup (p :: rest) →
      (∀ q ∈ p :: rest, q.author.did = userDid) →
      (∀ q, (p :: rest).getLast? = some q → q.record.reply = none) →
      (p :: rest).length ≤ fuel →
      isReplyInSelfOnlyThread lookup userDid fuel p = some true)
    ∧ walkNeverReturns cyclicLookup selfDid cyclicSelfPost := by
  constructor
  · intro lookup userDid p rest fuel hlink hself hlast hfuel
    exact walkChain_accepts_self_chain lookup userDid rest p fuel []
      hlink hself hlast hfuel (Or.inl rfl)
  · exact walkChain_cyclic_never_returns

/-- Witness for the amended C9: the two-post self chain is accepted, and the
cyclic walk returns nothing at fuel 7. -/
theorem walkChain_unbounded_depth_witness :
    isReplyInSelfOnlyThread scenarioLookup selfDid 5 selfReplyPost = some true
    ∧ walkChain cyclicLookup selfDid 7 cyclicSelfPost [] = none := by
  constructor
  · exact walkChain_unbounded_depth.1 scenarioLookup selfDid selfReplyPost
      [rootSelfPost] 5 ⟨⟨selfReplyPost.record.reply.get rfl, rfl, rfl⟩, trivial⟩
      (by decide) (by decide) (by decide)
  · exact walkChain_unbounded_depth.2 7 []

/-- C10.  The filter is order-preserving and selective: its output is a
subsequence of the input feed (every kept entry is an input entry, unmodified,
in the input's relative order — no reordering, duplication or insertion). -/
theorem filterPostsForSelfOnlyThreads_sublist
    (lookup : String → AncestorLookup) (userDid : String) (fuel : Nat)
    (feedItems : List BlueskyFeedItem) :
    List.Sublist (filterPostsForSelfOnlyThreads lookup userDid fuel feedItems)
      feedItems :=
  List.filter_sublist feedItems

/-! ## Lemmas about the backing store -/

theorem storeGet_storeSet_self {T : Type} (s : Store T) (k : String)
    (v : Raw T) : storeGet (storeSet s k v) k = some v := by
  induction s with
  | nil => simp [storeSet, storeGet]
  | cons p rest ih =>
    obtain ⟨k', v'⟩ := p
    by_cases h : k' = k
    · simp [storeSet, storeGet, h]
    · simp [storeSet, storeGet, h, ih]

theorem storeGet_storeRemove_self {T : Type} (s : Store T) (k : String) :
    storeGet (storeRemove s k) k = none := by
  induction s with
  | nil => simp [storeRemove, storeGet]
  | cons p rest ih =>
    obtain ⟨k', v'⟩ := p
    by_cases h : k' = k
    · simp [storeRemove, h, ih]
    · simp [storeRemove, storeGet, h, ih]

/-- Inversion of a successful `cacheGet`: the store is untouched and the key
holds a live, well-formed entry. -/
theorem cacheGet_some_inv {T : Type} (now : Nat) (s : Store T) (key : String)
    (d : T) (h : (cacheGet now s key).1 = some d) :
    (cacheGet now s key).2 = s
    ∧ ∃ item : CacheItem T, storeGet s (getKey key) = some (Raw.ok item)
        ∧ item.data = d ∧ isExpired now item = false := by
  rcases hs : storeGet s (getKey key) with _ | raw
  · simp only [cacheGet, hs] at h
    exact absurd h (by simp)
  · rcases raw with _ | item
    · simp only [cacheGet, hs] at h
      exact absurd h (by simp)
    · rcases hexp : isExpired now item with _ | _
      · have hget : cacheGet now s key = (some item.data, s) := by
          simp only [cacheGet, hs, hexp, Bool.false_eq_true, if_false]
        rw [hget] at h ⊢
        exact ⟨rfl, item, rfl, by simpa using h, hexp⟩
      · have hget : cacheGet now s key = (none, storeRemove s (getKey key)) := by
          simp only [cacheGet, hs, hexp, if_true]
        rw [hget] at h
        exact absurd h (by simp)

theorem ttlOrDefault_posts : ttlOrDefault (some POSTS_TTL) = POSTS_TTL := by
  norm_num [ttlOrDefault, POSTS_TTL]

/-- Reading back a `cacheSet` write at the write time itself: the fresh entry
is returned (`POSTS_TTL`-style positive ttls never expire instantly). -/
theorem cacheGet_cacheSet_self {T : Type} (now : Nat) (s : Store T)
    (key : String) (d : T) (ttl : Nat) (httl : 0 < ttl) :
    (cacheGet now (cacheSet now s key d (some ttl)) key).1 = some d := by
  have hfresh : isExpired now
      (⟨d, now, ttlOrDefault (some ttl)⟩ : CacheItem T) = false := by
    simp only [isExpired, ttlOrDefault, decide_eq_false_iff_not, not_lt]
    split <;> omega
  simp only [cacheSet, cacheGet, storeGet_storeSet_self, hfresh,
    Bool.false_eq_true, if_false]

/-! ## C5, C8 — generic cache reads -/

/-- C5.  For a key holding a well-formed stored entry, `get` returns the
stored value iff `now ≤ storedAt + ttl`; otherwise it returns absent, evicts
the entry, and every subsequent `get` of the key (at any later time) still
returns absent. -/
theorem cacheGet_ttl_spec {T : Type} (now : Nat) (s : Store T) (key : String)
    (item : CacheItem T)
    (hstored : storeGet s (getKey key) = some (Raw.ok item)) :
    ((cacheGet now s key).1 = some item.data
        ↔ now ≤ item.timestamp + item.expiry)
    ∧ (item.timestamp + item.expiry < now →
        (cacheGet now s key).1 = none
        ∧ storeGet (cacheGet now s key).2 (getKey key) = none
        ∧ ∀ later : Nat, (cacheGet later (cacheGet now s key).2 key).1 = none) := by
  by_cases hexp : item.timestamp + item.expiry < now
  · have he : isExpired now item = true := decide_eq_true hexp
    have hget : cacheGet now s key = (none, storeRemove s (getKey key)) := by
      simp only [cacheGet, hstored, he, if_true]
    rw [hget]
    refine ⟨?_, fun _ =>
      ⟨rfl, storeGet_storeRemove_self s (getKey key), fun later => ?_⟩⟩
    · constructor
      · intro h
        simp at h
      · intro h
        omega
    · simp only [cacheGet, storeGet_storeRemove_self]
  · have he : isExpired now item = false := by
      simpa [isExpired] using hexp
    have hget : cacheGet now s key = (some item.data, s) := by
      simp only [cacheGet, hstored, he, Bool.false_eq_true, if_false]
    rw [hget]
    refine ⟨?_, fun h => absurd h hexp⟩
    constructor
    · intro _
      omega
    · intro _
      rfl

/-- Witness for C5 at time 200 on an entry stored at 100 with ttl 50: the
read misses, evicts, and stays absent. -/
theorem cacheGet_ttl_spec_witness :
    (cacheGet 200 plainStore "k").1 = none
    ∧ storeGet (cacheGet 200 plainStore "k").2 (getKey "k") = none
    ∧ (cacheGet 300 (cacheGet 200 plainStore "k").2 "k").1 = none := by
  have h := (cacheGet_ttl_spec 200 plainStore "k" plainStoredItem rfl).2
    (by decide)
  exact ⟨h.1, h.2.1, h.2.2 300⟩

/-- C8 counterexample.  A `get` on an unparsable payload returns absent but
does *not* evict: `JSON.parse` throws, the `catch` returns `null`, and the
offending entry is still in the store afterwards. -/
theorem cacheGet_corrupt_entry_remains :
    (cacheGet 0 corruptStore "bad").1 = none
    ∧ (cacheGet 0 corruptStore "bad").2 = corruptStore
    ∧ storeGet (cacheGet 0 corruptStore "bad").2 (getKey "bad")
        = some Raw.corrupt :=
  ⟨rfl, rfl, rfl⟩

/-- C8 (amended).  A malformed cached payload makes `get` return absent
exactly as for a miss, but the offending entry is not evicted — the store is
left unchanged. -/
theorem cacheGet_corrupt_is_miss {T : Type} (now : Nat) (s : Store T)
    (key : String) (h : storeGet s (getKey key) = some Raw.corrupt) :
    (cacheGet now s key).1 = none ∧ (cacheGet now s key).2 = s := by
  rw [cacheGet, h]
  exact ⟨rfl, rfl⟩

/-- Witness for the amended C8 on the concrete corrupt store. -/
theorem cacheGet_corrupt_is_miss_witness :
    (cacheGet 3 corruptStore "bad").1 = none
    ∧ (cacheGet 3 corruptStore "bad").2 = corruptStore :=
  cacheGet_corrupt_is_miss 3 corruptStore "bad" rfl

/-! ## C6, C7 — the posts-specific merge semantics -/

theorem map_uri_filter (exUris : List String)
    (page : List BlueskyThreadItem) :
    (page.filter (fun t => !(exUris.contains t.post.uri))).map
        (fun t => t.post.uri)
      = (page.map (fun t => t.post.uri)).filter
          (fun u => !(exUris.contains u)) := by
  induction page with
  | nil => rfl
  | cons t page ih =>
    by_cases h : t.post.uri ∈ exUris
    · simp only [List.contains, List.elem_eq_mem] at ih ⊢
      simp [List.filter_cons, h, ih]
    · simp only [List.contains, List.elem_eq_mem] at ih ⊢
      simp [List.filter_cons, h, ih]

/-- Core characterization of `appendPosts` over a live cached entry: with at
least one genuinely new URI it writes the de-duplicated concatenation with the
new cursor; with no new URI it performs no write at all, leaving the store —
including the entry's stored timestamp and ttl — untouched. -/
theorem appendPosts_characterization (now : Nat) (s : Store PostsCacheData)
    (handle : String) (existing : PostsCacheData)
    (newPosts : List BlueskyThreadItem) (newCursor : Option String)
    (hlive : (getPosts now s handle).1 = some existing) :
    ((newPosts.filter (fun t =>
        !((existing.posts.map (fun t => t.post.uri)).contains t.post.uri)))
        ≠ [] →
      (getPosts now (appendPosts now s handle newPosts newCursor) handle).1
        = some { posts := existing.posts ++ newPosts.filter (fun t =>
                   !((existing.posts.map (fun t => t.post.uri)).contains
                     t.post.uri)),
                 cursor := newCursor, handle := handle })
    ∧ ((newPosts.filter (fun t =>
        !((existing.posts.map (fun t => t.post.uri)).contains t.post.uri)))
        = [] →
      appendPosts now s handle newPosts newCursor = s) := by
  obtain ⟨hsnd, item, hstored, hdata, hexp⟩ :=
    cacheGet_some_inv now s (postsKey handle) existing hlive
  have hpair : getPosts now s handle = (some existing, s) := by
    rw [getPosts]
    exact Prod.ext hlive hsnd
  constructor
  · intro hne
    have hpos : 0 < (newPosts.filter (fun t =>
        !((existing.posts.map (fun t => t.post.uri)).contains
          t.post.uri))).length := List.length_pos.mpr hne
    simp only [appendPosts, hpair]
    rw [if_pos hpos, getPosts]
    exact cacheGet_cacheSet_self now s (postsKey handle) _ POSTS_TTL
      (by norm_num [POSTS_TTL])
  · intro heq
    simp only [appendPosts, hpair]
    rw [heq]
    simp

/-- C6.  `appendPosts` merge semantics: over a live cached entry, incoming
threads whose URI is already cached are dropped, the remaining ones are
appended after the existing posts in their original relative order (so
existing `{A,B}` and incoming `{B,C}` yield exactly `{A,B,C}`), and when no
new URI remains, no cache write happens at all — the stored entry, its
timestamp and its ttl are untouched. -/
theorem appendPosts_spec (now : Nat) (s : Store PostsCacheData)
    (handle : String) (existing : PostsCacheData)
    (newPosts : List BlueskyThreadItem) (newCursor : Option String)
    (hlive : (getPosts now s handle).1 = some existing) :
    ((newPosts.filter (fun t =>
        !((existing.posts.map (fun t => t.post.uri)).contains t.post.uri)))
        ≠ [] →
      (getPosts now (appendPosts now s handle newPosts newCursor) handle).1
        = some { posts := existing.posts ++ newPosts.filter (fun t =>
                   !((existing.posts.map (fun t => t.post.uri)).contains
                     t.post.uri)),
                 cursor := newCursor, handle := handle })
    ∧ ((newPosts.filter (fun t =>
        !((existing.posts.map (fun t => t.post.uri)).contains t.post.uri)))
        = [] →
      appendPosts now s handle newPosts newCursor = s) :=
  appendPosts_characterization now s handle existing newPosts newCursor hlive

/-- Witness for C6: cached `[A, B]` plus incoming `[B, C]` yields exactly
`[A, B, C]` with the new cursor, and re-sending already-cached posts leaves
the store identical. -/
theorem appendPosts_spec_witness :
    (getPosts 0 (appendPosts 0 appendSeedStore "h" [threadItemB, threadItemC]
        (some "p2")) "h").1
      = some { posts := [threadItemA, threadItemB, threadItemC],
               cursor := some "p2", handle := "h" }
    ∧ appendPosts 0 appendSeedStore "h" [threadItemA, threadItemB]
        (some "p3") = appendSeedStore := by
  constructor
  · have h := (appendPosts_spec 0 appendSeedStore "h"
      { posts := [threadItemA, threadItemB], cursor := some "p1",
        handle := "h" }
      [threadItemB, threadItemC] (some "p2") rfl).1 (by decide)
    rw [h]
    rfl
  · exact (appendPosts_spec 0 appendSeedStore "h"
      { posts := [threadItemA, threadItemB], cursor := some "p1",
        handle := "h" }
      [threadItemA, threadItemB] (some "p3") rfl).2 (by decide)

/-- C7 counterexample.  A non-initial `setPosts` write concatenates without
de-duplication: re-sending the already cached post leaves the cache holding
the same post URI twice, so URI-uniqueness is not an invariant of the posts
cache. -/
theorem setPosts_creates_duplicate_uris :
    cachedPostUris 0 dupStore "h" = ["at://self/root", "at://self/root"]
    ∧ ¬ (cachedPostUris 0 dupStore "h").Nodup := by
  constructor
  · rfl
  · decide

/-- C7 (amended).  Non-initial writes only append: a paginating `setPosts`
over a live entry stores exactly the old posts followed by the new page
(without de-duplication), and `appendPosts` also only appends, never
introduces an already-cached URI, and preserves URI-uniqueness whenever the
existing list and the incoming page are each duplicate-free.  URI-uniqueness
across `setPosts` pagination writes, however, is not guaranteed (see the
counterexample). -/
theorem postsCache_append_only_spec (now : Nat) (s : Store PostsCacheData)
    (handle : String) (existing : PostsCacheData)
    (page : List BlueskyThreadItem) (cur : Option String)
    (hlive : (getPosts now s handle).1 = some existing) :
    ((getPosts now (setPosts now s handle page cur false) handle).1
        = some { posts := existing.posts ++ page, cursor := cur,
                 handle := handle })
    ∧ ((existing.posts.map (fun t => t.post.uri)).Nodup →
        (page.map (fun t => t.post.uri)).Nodup →
        ∀ d, (getPosts now (appendPosts now s handle page cur) handle).1
            = some d →
          (∃ fresh, d.posts = existing.posts ++ fresh)
          ∧ (d.posts.map (fun t => t.post.uri)).Nodup) := by
  obtain ⟨hsnd, item, hstored, hdata, hexp⟩ :=
    cacheGet_some_inv now s (postsKey handle) existing hlive
  have hpair : getPosts now s handle = (some existing, s) := by
    rw [getPosts]
    exact Prod.ext hlive hsnd
  constructor
  · have hset : setPosts now s handle page cur false
        = cacheSet now s (postsKey handle)
            { posts := existing.posts ++ page, cursor := cur,
              handle := handle } (some POSTS_TTL) := by
      simp only [setPosts, Bool.false_eq_true, if_false, hpair]
    rw [hset, getPosts]
    exact cacheGet_cacheSet_self now s (postsKey handle) _ POSTS_TTL
      (by norm_num [POSTS_TTL])
  · intro hexn hpgn d hd
    have hchar := appendPosts_characterization now s handle existing page cur
      hlive
    by_cases hflt : (page.filter (fun t =>
        !((existing.posts.map (fun t => t.post.uri)).contains t.post.uri)))
        = []
    · rw [hchar.2 hflt, hlive] at hd
      obtain rfl : existing = d := Option.some.inj hd
      exact ⟨⟨[], by simp⟩, hexn⟩
    · rw [hchar.1 hflt] at hd
      obtain rfl : _ = d := Option.some.inj hd
      refine ⟨⟨_, rfl⟩, ?_⟩
      rw [List.map_append, map_uri_filter]
      refine List.Nodup.append hexn (List.Nodup.filter _ hpgn) ?_
      intro u hu hufilt
      have hc := (List.mem_filter.mp hufilt).2
      simp only [List.contains, Bool.not_eq_true', List.elem_eq_mem,
        decide_eq_false_iff_not] at hc
      exact hc hu

/-- Witness for the amended C7: a pagination `setPosts` appends the page after
the cached posts, and `appendPosts` of a fresh post both appends and keeps the
URIs duplicate-free. -/
theorem postsCache_append_only_spec_witness :
    (getPosts 0 (setPosts 0 dupSeedStore "h" [threadItemB] (some "p4") false)
        "h").1
      = some { posts := [threadItemA, threadItemB], cursor := some "p4",
               handle := "h" }
    ∧ ((∃ fresh, [threadItemA, threadItemB] = [threadItemA] ++ fresh)
        ∧ (([threadItemA, threadItemB].map (fun t => t.post.uri)).Nodup)) := by
  have h := postsCache_append_only_spec 0 dupSeedStore "h"
    { posts := [threadItemA], cursor := some "p1", handle := "h" }
    [threadItemB] (some "p4") rfl
  exact ⟨h.1, h.2 (by decide) (by decide)
    { posts := [threadItemA, threadItemB], cursor := some "p4",
      handle := "h" } rfl⟩

/-! ## Lemmas about the thread builder -/

@[simp] theorem BlueskyThreadItem.entry_mk (e : BlueskyFeedItem)
    (cs : List BlueskyThreadItem) (r : Bool) :
    (BlueskyThreadItem.mk e cs r).entry = e := rfl

@[simp] theorem BlueskyThreadItem.children_mk (e : BlueskyFeedItem)
    (cs : List BlueskyThreadItem) (r : Bool) :
    (BlueskyThreadItem.mk e cs r).children = cs := rfl

@[simp] theorem BlueskyThreadItem.isThreadRoot_mk (e : BlueskyFeedItem)
    (cs : List BlueskyThreadItem) (r : Bool) :
    (BlueskyThreadItem.mk e cs r).isThreadRoot = r := rfl

@[simp] theorem buildNode_entry (posts : List BlueskyFeedItem) (n : Nat)
    (r : Bool) (e : BlueskyFeedItem) :
    (buildNode posts n r e).entry = e := by
  cases n <;> rfl

@[simp] theorem buildNode_isThreadRoot (posts : List BlueskyFeedItem)
    (n : Nat) (r : Bool) (e : BlueskyFeedItem) :
    (buildNode posts n r e).isThreadRoot = r := by
  cases n <;> rfl

theorem sortForestNode_mk (e : BlueskyFeedItem)
    (cs : List BlueskyThreadItem) (r : Bool) :
    sortForestNode (.mk e cs r)
      = .mk e (sortLe (ascLe nodeKey) (cs.map sortForestNode)) r := by
  rw [sortForestNode]
  congr 2
  exact List.attach_map_val cs sortForestNode

@[simp] theorem sortForestNode_entry (t : BlueskyThreadItem) :
    (sortForestNode t).entry = t.entry := by
  obtain ⟨e, cs, r⟩ := t
  rw [sortForestNode_mk]
  rfl

@[simp] theorem sortForestNode_isThreadRoot (t : BlueskyThreadItem) :
    (sortForestNode t).isThreadRoot = t.isThreadRoot := by
  obtain ⟨e, cs, r⟩ := t
  rw [sortForestNode_mk]
  rfl

@[simp] theorem nodeKey_sortForestNode (t : BlueskyThreadItem) :
    nodeKey (sortForestNode t) = nodeKey t := by
  rw [nodeKey, sortForestNode_entry]
  rfl

@[simp] theorem nodeKey_buildNode (posts : List BlueskyFeedItem) (n : Nat)
    (r : Bool) (e : BlueskyFeedItem) :
    nodeKey (buildNode posts n r e) = entryKey e := by
  rw [nodeKey, buildNode_entry]

/-- Every node of a sorted tree is the sorted image of a node of the original
tree. -/
theorem occursIn_sortForestNode (s' t : BlueskyThreadItem)
    (h : OccursIn s' (sortForestNode t)) :
    ∃ s, OccursIn s t ∧ s' = sortForestNode s := by
  have key : ∀ s' x, OccursIn s' x → ∀ t, x = sortForestNode t →
      ∃ s, OccursIn s t ∧ s' = sortForestNode s := by
    intro s' x h
    induction h with
    | refl =>
      intro t ht
      exact ⟨t, OccursIn.refl t, ht⟩
    | child hmem _ ih =>
      intro t ht
      obtain ⟨e, cs, r⟩ := t
      rw [sortForestNode_mk] at ht
      subst ht
      rw [BlueskyThreadItem.children_mk] at hmem
      have hmem' := ((sortLe_perm (ascLe nodeKey)
        (cs.map sortForestNode)).mem_iff).mp hmem
      obtain ⟨c0, hc0, rfl⟩ := List.mem_map.mp hmem'
      obtain ⟨s, hs, rfl⟩ := ih c0 rfl
      exact ⟨s, OccursIn.child (by simpa using hc0) hs, rfl⟩
  exact key s' _ h t rfl

/-- Every member's parent URI, along an ancestor chain, is the URI of a strict
successor in the chain or is off the page entirely. -/
theorem ancChain_parent_dest (posts : List BlueskyFeedItem) :
    ∀ (rest : List BlueskyFeedItem) (a : BlueskyFeedItem),
      AncChainCond posts (a :: rest) →
      ∀ d ∈ a :: rest, ∀ u, parentUriOf d = some u →
        u ∈ rest.map (fun x => x.post.uri) ∨ u ∉ pageUris posts := by
  intro rest
  induction rest with
  | nil =>
    intro a hcond d hd u hu
    obtain ⟨_, hroot⟩ := hcond
    rw [List.mem_singleton] at hd
    subst hd
    simp only [isAttachedChild, hu] at hroot
    right
    intro hmem
    simp only [List.contains, List.elem_eq_mem, decide_eq_false_iff_not]
      at hroot
    exact hroot hmem
  | cons b rest ih =>
    intro a hcond d hd u hu
    obtain ⟨_, hab, hcond'⟩ := hcond
    rcases List.mem_cons.mp hd with rfl | hd
    · rw [hab] at hu
      left
      rw [Option.some.injEq] at hu
      subst hu
      exact List.mem_map_of_mem (fun x => x.post.uri) (List.mem_cons_self b rest)
    · rcases ih b hcond' d hd u hu with hin | hout
      · left
        rw [List.map_cons]
        exact List.mem_cons_of_mem _ hin
      · right
        exact hout

/-- Every member of an ancestor chain is on the page. -/
theorem ancChain_mem (posts : List BlueskyFeedItem) :
    ∀ (rest : List BlueskyFeedItem) (a : BlueskyFeedItem),
      AncChainCond posts (a :: rest) → ∀ d ∈ a :: rest, d ∈ posts := by
  intro rest
  induction rest with
  | nil =>
    intro a hcond d hd
    rw [List.mem_singleton] at hd
    subst hd
    exact hcond.1
  | cons b rest ih =>
    intro a hcond d hd
    obtain ⟨ha, _, hcond'⟩ := hcond
    rcases List.mem_cons.mp hd with rfl | hd
    · exact ha
    · exact ih b hcond' d hd

/-- On a page with unique URIs, entries are determined by their URI. -/
theorem uri_inj (posts : List BlueskyFeedItem)
    (hnd : (pageUris posts).Nodup) {a b : BlueskyFeedItem}
    (ha : a ∈ posts) (hb : b ∈ posts) (huri : a.post.uri = b.post.uri) :
    a = b :=
  List.inj_on_of_nodup_map hnd ha hb huri

/-- Extending an ancestor chain by one of the head's children keeps the chain
conditions: the child is linked to the head, and its URI is fresh — no member
of the chain can be a reply to the head (the root has no on-page parent and
every other member's parent is its own successor). -/
theorem ancChain_extend (posts : List BlueskyFeedItem)
    (hnd : (pageUris posts).Nodup) (a : BlueskyFeedItem)
    (rest : List BlueskyFeedItem) (hcond : AncChainCond posts (a :: rest))
    (hfnd : ((a :: rest).map (fun x => x.post.uri)).Nodup)
    (c : BlueskyFeedItem) (hc : c ∈ childrenEntries posts a.post.uri) :
    AncChainCond posts (c :: a :: rest)
    ∧ ((c :: a :: rest).map (fun x => x.post.uri)).Nodup := by
  have hcmem : c ∈ posts := (List.mem_filter.mp hc).1
  have hcpar : parentUriOf c = some a.post.uri := by
    have := (List.mem_filter.mp hc).2
    exact eq_of_beq this
  have hamem : a ∈ posts := ancChain_mem posts rest a hcond a
    (List.mem_cons_self a rest)
  refine ⟨⟨hcmem, hcpar, hcond⟩, ?_⟩
  rw [List.map_cons, List.nodup_cons]
  refine ⟨?_, hfnd⟩
  intro hcu
  obtain ⟨d, hd, hdu⟩ := List.mem_map.mp hcu
  obtain rfl : d = c :=
    uri_inj posts hnd (ancChain_mem posts rest a hcond d hd) hcmem hdu
  rcases ancChain_parent_dest posts rest a hcond d hd a.post.uri hcpar
    with hin | hout
  · have : a.post.uri ∉ rest.map (fun x => x.post.uri) := by
      rw [List.map_cons, List.nodup_cons] at hfnd
      exact hfnd.1
    exact this hin
  · exact hout (List.mem_map_of_mem (fun x => x.post.uri) hamem)

/-- An ancestor chain with distinct URIs cannot be longer than the page. -/
theorem ancChain_length_le (posts : List BlueskyFeedItem)
    (l : List BlueskyFeedItem)
    (hfnd : (l.map (fun x => x.post.uri)).Nodup)
    (hsub : ∀ d ∈ l, d ∈ posts) : l.length ≤ posts.length := by
  have hsub' : l.map (fun x => x.post.uri) ⊆ pageUris posts := by
    intro u hu
    obtain ⟨d, hd, rfl⟩ := List.mem_map.mp hu
    exact List.mem_map_of_mem (fun x => x.post.uri) (hsub d hd)
  have := (hfnd.subperm hsub').length_le
  simpa [pageUris] using this

theorem ascLe_total {α : Type} (key : α → Nat) :
    ∀ x y, ascLe key x y = true ∨ ascLe key y x = true := by
  intro x y
  simp only [ascLe, decide_eq_true_eq]
  omega

theorem ascLe_trans {α : Type} (key : α → Nat) :
    ∀ x y z, ascLe key x y = true → ascLe key y z = true →
      ascLe key x z = true := by
  intro x y z
  simp only [ascLe, decide_eq_true_eq]
  omega

theorem descLe_total {α : Type} (key : α → Nat) :
    ∀ x y, descLe key x y = true ∨ descLe key y x = true := by
  intro x y
  simp only [descLe, decide_eq_true_eq]
  omega

theorem descLe_trans {α : Type} (key : α → Nat) :
    ∀ x y z, descLe key x y = true → descLe key y z = true →
      descLe key x z = true := by
  intro x y z
  simp only [descLe, decide_eq_true_eq]
  omega

/-- Fuel sufficiency: on a page with unique URIs, `posts.length` fuel builds
every node reachable from a root completely — each such node's children wrap
exactly the page entries whose parent URI is the node's URI, in feed order,
and none of them is flagged as a thread root. -/
theorem buildNode_occursIn_spec (posts : List BlueskyFeedItem)
    (hnd : (pageUris posts).Nodup) :
    ∀ (n : Nat) (e : BlueskyFeedItem) (rest : List BlueskyFeedItem) (r : Bool),
      AncChainCond posts (e :: rest) →
      ((e :: rest).map (fun x => x.post.uri)).Nodup →
      posts.length ≤ n + rest.length →
      ∀ s, OccursIn s (buildNode posts n r e) →
        s.children.map BlueskyThreadItem.entry
            = childrenEntries posts s.entry.post.uri
        ∧ (∀ c ∈ s.children, c.isThreadRoot = false) := by
  intro n
  induction n with
  | zero =>
    intro e rest r hcond hfnd hlen s hocc
    exfalso
    have h1 : (e :: rest).length ≤ posts.length :=
      ancChain_length_le posts (e :: rest) hfnd
        (ancChain_mem posts rest e hcond)
    simp only [List.length_cons] at h1
    omega
  | succ n ih =>
    intro e rest r hcond hfnd hlen s hocc
    cases hocc with
    | refl =>
      constructor
      · simp only [buildNode, BlueskyThreadItem.children_mk,
          BlueskyThreadItem.entry_mk, List.map_map]
        rw [show (BlueskyThreadItem.entry ∘ buildNode posts n false)
            = id from funext fun c => buildNode_entry posts n false c]
        exact List.map_id _
      · simp only [buildNode, BlueskyThreadItem.children_mk]
        intro c hc
        obtain ⟨c0, _, rfl⟩ := List.mem_map.mp hc
        exact buildNode_isThreadRoot posts n false c0
    | child hmem hsub =>
      simp only [buildNode, BlueskyThreadItem.children_mk] at hmem
      obtain ⟨c0, hc0, rfl⟩ := List.mem_map.mp hmem
      obtain ⟨hcond', hfnd'⟩ :=
        ancChain_extend posts hnd e rest hcond hfnd c0 hc0
      exact ih c0 (e :: rest) false hcond' hfnd'
        (by simp only [List.length_cons]; omega) s hsub

/-- Master lemma for the sorted forest: every node reachable from an output
root carries, as children, exactly the page entries whose parent URI is the
node's URI, sorted ascending by index timestamp (stably, i.e. as `sortLe`
leaves the feed order), all flagged as non-roots. -/
theorem groupPosts_children_master (posts : List BlueskyFeedItem)
    (hnd : (pageUris posts).Nodup) (root0 : BlueskyThreadItem)
    (hroot : root0 ∈ groupPostsIntoThreads posts) (s' : BlueskyThreadItem)
    (hocc : OccursIn s' root0) :
    s'.children.map BlueskyThreadItem.entry
        = sortLe (ascLe entryKey) (childrenEntries posts s'.entry.post.uri)
    ∧ (∀ c ∈ s'.children, c.isThreadRoot = false)
    ∧ s'.children.Pairwise (fun a b => nodeKey a ≤ nodeKey b) := by
  rw [groupPostsIntoThreads] at hroot
  obtain ⟨e, he, rfl⟩ := List.mem_map.mp hroot
  have heR : e ∈ rootEntries posts :=
    ((sortLe_perm (descLe entryKey) (rootEntries posts)).mem_iff).mp he
  have heCond : AncChainCond posts [e] := by
    obtain ⟨h1, h2⟩ := List.mem_filter.mp heR
    refine ⟨h1, ?_⟩
    simpa using h2
  obtain ⟨s, hs, rfl⟩ := occursIn_sortForestNode s' _ hocc
  have hspec := buildNode_occursIn_spec posts hnd posts.length e [] true
    heCond (by simp) (by simp) s hs
  obtain ⟨e0, cs0, r0⟩ := s
  rw [sortForestNode_mk]
  simp only [BlueskyThreadItem.children_mk, BlueskyThreadItem.entry_mk]
  refine ⟨?_, ?_, ?_⟩
  · have hmapsort := sortLe_map BlueskyThreadItem.entry (ascLe nodeKey)
      (ascLe entryKey) (fun _ _ => rfl) (cs0.map sortForestNode)
    rw [← hmapsort]
    congr 1
    rw [List.map_map]
    rw [show (BlueskyThreadItem.entry ∘ sortForestNode)
        = BlueskyThreadItem.entry from funext fun c => sortForestNode_entry c]
    simpa using hspec.1
  · intro c hc
    have hc' := ((sortLe_perm (ascLe nodeKey) (cs0.map sortForestNode)).mem_iff).mp hc
    obtain ⟨c0, hc0, rfl⟩ := List.mem_map.mp hc'
    rw [sortForestNode_isThreadRoot]
    exact hspec.2 c0 (by simpa using hc0)
  · have hp := sortLe_pairwise (ascLe nodeKey) (ascLe_total nodeKey)
      (ascLe_trans nodeKey) (cs0.map sortForestNode)
    exact hp.imp (fun h => by simpa [ascLe] using h)

/-! ## C3, C4 — the thread builder -/

/-- C3.  For a page with unique post URIs: the builder's output roots are
exactly (a permutation of — they are re-sorted) the entries that are not
attached as children, i.e. top-level posts and replies whose parent URI is not
on this page, each flagged `isThreadRoot`; and every node of the output forest
has as children exactly the page entries whose reply parent URI is that node's
post URI, each flagged as a non-root. -/
theorem groupPostsIntoThreads_spec (posts : List BlueskyFeedItem)
    (hnd : (pageUris posts).Nodup) :
    ((groupPostsIntoThreads posts).map BlueskyThreadItem.entry).Perm
        (rootEntries posts)
    ∧ ∀ root0 ∈ groupPostsIntoThreads posts,
        root0.isThreadRoot = true
        ∧ ∀ s', OccursIn s' root0 →
            ((s'.children.map BlueskyThreadItem.entry).Perm
                (childrenEntries posts s'.entry.post.uri)
              ∧ ∀ c ∈ s'.children, c.isThreadRoot = false) := by
  constructor
  · rw [groupPostsIntoThreads, List.map_map]
    rw [show (BlueskyThreadItem.entry ∘ fun e =>
        sortForestNode (buildNode posts posts.length true e)) = id from
      funext fun e => by simp [Function.comp]]
    rw [List.map_id]
    exact sortLe_perm _ _
  · intro root0 hroot
    constructor
    · rw [groupPostsIntoThreads] at hroot
      obtain ⟨e, _, rfl⟩ := List.mem_map.mp hroot
      simp
    · intro s' hocc
      obtain ⟨hitems, hflags, _⟩ :=
        groupPosts_children_master posts hnd root0 hroot s' hocc
      refine ⟨?_, hflags⟩
      rw [hitems]
      exact sortLe_perm _ _

/-- Witness for C3 on the concrete page: the roots are exactly the top-level
post and the off-page reply (in some order), flagged as roots. -/
theorem groupPostsIntoThreads_spec_witness :
    ((groupPostsIntoThreads samplePage).map BlueskyThreadItem.entry).Perm
        (rootEntries samplePage)
    ∧ ∀ root0 ∈ groupPostsIntoThreads samplePage,
        root0.isThreadRoot = true := by
  have h := groupPostsIntoThreads_spec samplePage (by decide)
  exact ⟨h.1, fun root0 hroot => (h.2 root0 hroot).1⟩

/-- C4.  For a page with unique post URIs: output roots are sorted by index
timestamp descending; every node's children are sorted by index timestamp
ascending; and both sorts are stable — for each timestamp value, the entries
carrying it appear in their original feed order (roots in `rootEntries`
order, children in `childrenEntries` order), with no secondary key. -/
theorem groupPostsIntoThreads_ordering (posts : List BlueskyFeedItem)
    (hnd : (pageUris posts).Nodup) :
    ((groupPostsIntoThreads posts).Pairwise
        (fun a b => nodeKey b ≤ nodeKey a))
    ∧ (∀ τ : Nat, ((groupPostsIntoThreads posts).filter
            (fun t => nodeKey t == τ)).map BlueskyThreadItem.entry
        = (rootEntries posts).filter (fun e => entryKey e == τ))
    ∧ (∀ root0 ∈ groupPostsIntoThreads posts, ∀ s', OccursIn s' root0 →
        (s'.children.Pairwise (fun a b => nodeKey a ≤ nodeKey b))
        ∧ ∀ τ : Nat, (s'.children.filter
              (fun t => nodeKey t == τ)).map BlueskyThreadItem.entry
            = (childrenEntries posts s'.entry.post.uri).filter
                (fun e => entryKey e == τ)) := by
  refine ⟨?_, ?_, ?_⟩
  · rw [groupPostsIntoThreads, List.pairwise_map]
    have hp := sortLe_pairwise (descLe entryKey) (descLe_total entryKey)
      (descLe_trans entryKey) (rootEntries posts)
    exact hp.imp (fun h => by simpa using of_decide_eq_true h)
  · intro τ
    rw [groupPostsIntoThreads, List.filter_map, List.map_map]
    rw [show (BlueskyThreadItem.entry ∘ fun e =>
        sortForestNode (buildNode posts posts.length true e)) = id from
      funext fun e => by simp [Function.comp]]
    rw [List.map_id]
    have hfc : ∀ e ∈ sortLe (descLe entryKey) (rootEntries posts),
        ((fun t => nodeKey t == τ) ∘ fun e =>
          sortForestNode (buildNode posts posts.length true e)) e
        = (entryKey e == τ) := fun e _ => by simp [Function.comp]
    rw [List.filter_congr hfc]
    exact sortLe_filter (descLe entryKey) _
      (fun x y hx hy => by
        simp only [beq_iff_eq] at hx hy
        simp [descLe, hx, hy])
      (rootEntries posts)
  · intro root0 hroot s' hocc
    obtain ⟨hitems, _, hpw⟩ :=
      groupPosts_children_master posts hnd root0 hroot s' hocc
    refine ⟨hpw, ?_⟩
    intro τ
    have hstep1 : (s'.children.filter (fun t => nodeKey t == τ)).map
          BlueskyThreadItem.entry
        = (s'.children.map BlueskyThreadItem.entry).filter
            (fun e => entryKey e == τ) := by
      rw [List.filter_map]
      rfl
    rw [hstep1, hitems]
    exact sortLe_filter (ascLe entryKey) _
      (fun x y hx hy => by
        simp only [beq_iff_eq] at hx hy
        simp [ascLe, hx, hy])
      (childrenEntries posts s'.entry.post.uri)

/-- Witness for C4 on the concrete page: roots are ordered newest-first, and
the root-level stability equation holds at timestamp 10. -/
theorem groupPostsIntoThreads_ordering_witness :
    ((groupPostsIntoThreads samplePage).Pairwise
        (fun a b => nodeKey b ≤ nodeKey a))
    ∧ ((groupPostsIntoThreads samplePage).filter
          (fun t => nodeKey t == 10)).map BlueskyThreadItem.entry
        = (rootEntries samplePage).filter (fun e => entryKey e == 10) := by
  have h := groupPostsIntoThreads_ordering samplePage (by decide)
  exact ⟨h.1, h.2.1 10⟩

end MyAtmosphere
